import Mathlib

/-!
Verification development for the thread-notes plugin: the thread graph
(`src/graph/ThreadGraph.ts`), the chain-insertion service
(`src/services/ChainInsertionService.ts`), the graph builder and the
empty-line trigger detector.  TypeScript `Map`s become insertion-ordered
association lists, strings become Lean `String`s manipulated through
`List Char` (so that every definition evaluates by kernel reduction),
and nullable values become `Option`.  JavaScript truthiness tests on
strings (`if (s)`) are modelled by an explicit comparison with the
empty string, and `x ?? d` by `Option` operations.
-/

namespace ThreadNotes

/-- Insertion-ordered association list modelling a JavaScript `Map`
(and a plain object used as a string-keyed record): `set` replaces the
value in place when the key is already present and appends a new entry
at the end otherwise. -/
def mapSet {α : Type} : List (String × α) → String → α → List (String × α)
  | [], k, v => [(k, v)]
  | (k', v') :: rest, k, v =>
    if k' = k then (k', v) :: rest else (k', v') :: mapSet rest k v

/-- `Map.get`: the value stored at the key, `none` when absent. -/
def mapGet {α : Type} : List (String × α) → String → Option α
  | [], _ => none
  | (k', v') :: rest, k => if k' = k then some v' else mapGet rest k

/-- The thread graph of `ThreadGraph.ts`: `prevMap` holds the explicit
`prev` edges from frontmatter (`notePath → prevNotePath`), `nextMap`
the implied inverse edges.  `mainMap` is modelled from the spec: the
extended class additionally stores the main-thread marker set by
`setIsMainThread`, whose implementation is not among the repository's
files (only its callers are); §4.1 specifies it as an upsert
independent of `prev`. -/
structure ThreadGraph where
  prevMap : List (String × Option String)
  nextMap : List (String × List String)
  mainMap : List (String × Bool)
deriving DecidableEq

def ThreadGraph.empty : ThreadGraph := ⟨[], [], []⟩

/-- `getPrev(path) { return this.prevMap.get(path) ?? null; }` — `??`
turns a missing entry into `null` but keeps a stored empty string. -/
def getPrev (g : ThreadGraph) (path : String) : Option String :=
  (mapGet g.prevMap path).join

/-- `getNext(path) { return this.nextMap.get(path) ?? []; }` -/
def getNext (g : ThreadGraph) (path : String) : List String :=
  (mapGet g.nextMap path).getD []

/-- `setPrev(path, prevPath) { this.prevMap.set(path, prevPath); }` -/
def setPrev (g : ThreadGraph) (path : String) (prevPath : Option String) : ThreadGraph :=
  { g with prevMap := mapSet g.prevMap path prevPath }

/-- `hasNode(path) { return this.prevMap.has(path); }` -/
def hasNode (g : ThreadGraph) (path : String) : Bool :=
  (mapGet g.prevMap path).isSome

/-- `getAllNodes() { return Array.from(this.prevMap.keys()); }` -/
def getAllNodes (g : ThreadGraph) : List String :=
  g.prevMap.map Prod.fst

/-- The body of `buildNextMap`'s loop once the guard passed:
`existing = nextMap.get(prevPath) ?? []; existing.push(notePath);
nextMap.set(prevPath, existing)`. -/
def pushNext (m : List (String × List String)) (prevPath notePath : String) :
    List (String × List String) :=
  mapSet m prevPath ((mapGet m prevPath).getD [] ++ [notePath])

/-- One iteration of `buildNextMap`'s loop over a `prevMap` entry.
`if (prevPath)` is a JavaScript truthiness test, so both a `null` and
an empty-string predecessor are skipped. -/
def nextFoldStep (acc : List (String × List String)) (entry : String × Option String) :
    List (String × List String) :=
  match entry.2 with
  | some prevPath => if prevPath = "" then acc else pushNext acc prevPath entry.1
  | none => acc

def buildNextFold (entries : List (String × Option String))
    (acc : List (String × List String)) : List (String × List String) :=
  entries.foldl nextFoldStep acc

/-- `buildNextMap()`: clears `nextMap` and re-derives it by inverting
`prevMap` in insertion order. -/
def buildNextMap (g : ThreadGraph) : ThreadGraph :=
  { g with nextMap := buildNextFold g.prevMap [] }

/-- Modelled from the spec: `setMainMarker(node, bool)` "upserts the
marker; independent of `prev`" (§4.1).  The method `setIsMainThread` is
called by the graph builder and the insertion service but its own code
is not among the repository's files. -/
def setIsMainThread (g : ThreadGraph) (path : String) (isMain : Bool) : ThreadGraph :=
  { g with mainMap := mapSet g.mainMap path isMain }

/-- The graph state reached from an empty graph by a sequence of
`setPrev(path, prevPath)` calls. -/
def applyOps (ops : List (String × Option String)) : ThreadGraph :=
  ops.foldl (fun g op => setPrev g op.1 op.2) ThreadGraph.empty

/-! ### Association-list lemmas -/

theorem mapGet_mapSet {α : Type} (m : List (String × α)) (a b : String) (v : α) :
    mapGet (mapSet m a v) b = if a = b then some v else mapGet m b := by
  induction m with
  | nil => by_cases h : a = b <;> simp [mapSet, mapGet, h]
  | cons hd tl ih =>
    obtain ⟨k, w⟩ := hd
    by_cases hka : k = a
    · subst hka
      by_cases hab : k = b <;> simp [mapSet, mapGet, hab]
    · by_cases hkb : k = b
      · subst hkb
        simp [mapSet, mapGet, hka]
        rw [if_neg (fun h : a = k => hka h.symm)]
      · simp [mapSet, mapGet, hka, hkb, ih]

theorem mem_of_mapGet_eq_some {α : Type} {m : List (String × α)} {k : String} {v : α}
    (h : mapGet m k = some v) : (k, v) ∈ m := by
  induction m with
  | nil => simp [mapGet] at h
  | cons hd tl ih =>
    obtain ⟨k', w⟩ := hd
    by_cases hk : k' = k
    · subst hk
      simp [mapGet] at h
      simp [h]
    · simp [mapGet, hk] at h
      exact List.mem_cons_of_mem _ (ih h)

theorem mapGet_eq_none_iff {α : Type} (m : List (String × α)) (k : String) :
    mapGet m k = none ↔ k ∉ m.map Prod.fst := by
  induction m with
  | nil => simp [mapGet]
  | cons hd tl ih =>
    obtain ⟨k', w⟩ := hd
    by_cases hk : k' = k
    · simp [mapGet, hk]
    · simp [mapGet, hk, ih]
      tauto

theorem mem_mapSet {α : Type} {m : List (String × α)} {a : String} {v : α}
    {e : String × α} (he : e ∈ mapSet m a v) : e ∈ m ∨ e = (a, v) := by
  induction m with
  | nil => simpa [mapSet] using he
  | cons hd tl ih =>
    obtain ⟨k, w⟩ := hd
    by_cases hk : k = a
    · subst hk
      simp [mapSet] at he
      rcases he with he | he
      · exact Or.inr (by simp [he])
      · exact Or.inl (by simp [he])
    · simp [mapSet, hk] at he
      rcases he with he | he
      · exact Or.inl (by simp [he])
      · rcases ih he with h | h
        · exact Or.inl (List.mem_cons_of_mem _ h)
        · exact Or.inr h

/-! ### The `buildNextMap` inversion invariant -/

theorem getD_pushNext (m : List (String × List String)) (p n y : String) :
    (mapGet (pushNext m p n) y).getD [] =
      if p = y then (mapGet m p).getD [] ++ [n] else (mapGet m y).getD [] := by
  unfold pushNext
  rw [mapGet_mapSet]
  split <;> rfl

theorem mem_getD_buildNextFold_of_mem_acc (entries : List (String × Option String))
    (acc : List (String × List String)) (y x : String)
    (h : x ∈ (mapGet acc y).getD []) :
    x ∈ (mapGet (buildNextFold entries acc) y).getD [] := by
  induction entries generalizing acc with
  | nil => simpa [buildNextFold] using h
  | cons e rest ih =>
    show x ∈ (mapGet (buildNextFold rest (nextFoldStep acc e)) y).getD []
    apply ih
    unfold nextFoldStep
    rcases e with ⟨note, pv⟩
    match pv with
    | none => exact h
    | some q =>
      simp only
      split
      · exact h
      · rw [getD_pushNext]
        split
        · next hq => rw [← hq] at h; exact List.mem_append_left _ h
        · exact h

theorem mem_getD_buildNextFold_of_mem_entries (entries : List (String × Option String))
    (acc : List (String × List String)) (X Y : String)
    (hmem : (X, some Y) ∈ entries) (hY : Y ≠ "") :
    X ∈ (mapGet (buildNextFold entries acc) Y).getD [] := by
  induction entries generalizing acc with
  | nil => simp at hmem
  | cons e rest ih =>
    show X ∈ (mapGet (buildNextFold rest (nextFoldStep acc e)) Y).getD []
    rcases List.mem_cons.mp hmem with he | he
    · apply mem_getD_buildNextFold_of_mem_acc
      rw [← he]
      show X ∈ (mapGet (nextFoldStep acc (X, some Y)) Y).getD []
      unfold nextFoldStep
      simp only
      rw [if_neg hY, getD_pushNext, if_pos rfl]
      exact List.mem_append_right _ (List.mem_singleton.mpr rfl)
    · exact ih (nextFoldStep acc e) he

/-- The inversion invariant for any graph: after `buildNextMap`, a node
whose recorded predecessor is the non-empty string `Y` appears in
`getNext(Y)`. -/
theorem mem_getNext_buildNextMap {g : ThreadGraph} {X Y : String}
    (h : getPrev g X = some Y) (hY : Y ≠ "") :
    X ∈ getNext (buildNextMap g) Y := by
  have hm : mapGet g.prevMap X = some (some Y) := by
    unfold getPrev at h
    cases hx : mapGet g.prevMap X with
    | none => rw [hx] at h; simp [Option.join] at h
    | some o => rw [hx] at h; simp [Option.join] at h; rw [h]
  exact mem_getD_buildNextFold_of_mem_entries g.prevMap [] X Y
    (mem_of_mapGet_eq_some hm) hY

/-! ### Claim C6 -/

/-- Claim C6: calling `buildNextMap` twice in a row with no intervening
`setPrev` yields a graph (in particular a `next` mapping) identical to
calling it once. -/
theorem claim6_buildNextMap_idempotent (g : ThreadGraph) :
    buildNextMap (buildNextMap g) = buildNextMap g := rfl

/-! ### Claim C1 -/

/-- Claim C1 (amended): for every graph state reached by a sequence of
`setPrev` calls followed by `buildNextMap`, and every node `X` with
`getPrev(X) = Y` where `Y` is non-null and non-empty, `getNext(Y)`
contains `X`.  (The empty string must be excluded: `buildNextMap`'s
`if (prevPath)` truthiness test skips it, see the counterexample.) -/
theorem claim1_next_inverts_prev (ops : List (String × Option String)) (X Y : String)
    (h : getPrev (buildNextMap (applyOps ops)) X = some Y) (hY : Y ≠ "") :
    X ∈ getNext (buildNextMap (applyOps ops)) Y :=
  mem_getNext_buildNextMap (g := applyOps ops) h hY

theorem claim1_witness :
    getPrev (buildNextMap (applyOps [("B", some "A")])) "B" = some "A" ∧
    "B" ∈ getNext (buildNextMap (applyOps [("B", some "A")])) "A" :=
  ⟨by decide, claim1_next_inverts_prev [("B", some "A")] "B" "A" (by decide) (by decide)⟩

/-- After `setPrev("X", "")` and a rebuild, `getPrev("X")` is the
non-null value `""` yet `getNext("")` does not contain `"X"`: the
stated invariant fails for an empty-string predecessor. -/
theorem claim1_counterexample :
    getPrev (buildNextMap (applyOps [("X", some "")])) "X" = some "" ∧
    "X" ∉ getNext (buildNextMap (applyOps [("X", some "")])) "" := by decide

/-! ### Claims C9 and C10 -/

theorem mapGet_foldl_setPrev (ops : List (String × Option String)) (g : ThreadGraph)
    (p : String) (hg : mapGet g.prevMap p = none) (h : ∀ op ∈ ops, op.1 ≠ p) :
    mapGet (ops.foldl (fun g op => setPrev g op.1 op.2) g).prevMap p = none := by
  induction ops generalizing g with
  | nil => simpa using hg
  | cons op rest ih =>
    show mapGet (rest.foldl _ (setPrev g op.1 op.2)).prevMap p = none
    apply ih
    · show mapGet (mapSet g.prevMap op.1 op.2) p = none
      rw [mapGet_mapSet, if_neg (h op (List.mem_cons_self op rest)), hg]
    · exact fun o ho => h o (List.mem_cons_of_mem _ ho)

theorem mem_foldl_setPrev_prevMap (ops : List (String × Option String)) (g : ThreadGraph)
    (e : String × Option String)
    (he : e ∈ (ops.foldl (fun g op => setPrev g op.1 op.2) g).prevMap) :
    e ∈ g.prevMap ∨ e.2 ∈ ops.map Prod.snd := by
  induction ops generalizing g with
  | nil => exact Or.inl he
  | cons op rest ih =>
    have he' : e ∈ (rest.foldl (fun g op => setPrev g op.1 op.2) (setPrev g op.1 op.2)).prevMap := he
    rcases ih (setPrev g op.1 op.2) he' with h | h
    · rcases mem_mapSet h with h2 | h2
      · exact Or.inl h2
      · exact Or.inr (by simp [h2])
    · exact Or.inr (by simp [h])

theorem mapGet_buildNextFold_none (entries : List (String × Option String))
    (acc : List (String × List String)) (Y : String)
    (hacc : mapGet acc Y = none) (hent : ∀ e ∈ entries, e.2 ≠ some Y) :
    mapGet (buildNextFold entries acc) Y = none := by
  induction entries generalizing acc with
  | nil => simpa [buildNextFold] using hacc
  | cons e rest ih =>
    show mapGet (buildNextFold rest (nextFoldStep acc e)) Y = none
    apply ih
    · unfold nextFoldStep
      rcases e with ⟨note, pv⟩
      match pv with
      | none => exact hacc
      | some q =>
        have hq : q ≠ Y := fun h => hent (note, some q) (List.mem_cons_self _ _) (by rw [h])
        simp only
        split
        · exact hacc
        · unfold pushNext
          rw [mapGet_mapSet, if_neg hq, hacc]
    · exact fun o ho => hent o (List.mem_cons_of_mem _ ho)

/-- Claim C9 (amended): a path `p` passed as the second argument of some
`setPrev` call but never as the first is not a node after the rebuild:
`hasNode(p)` is false and `p` is absent from `getAllNodes()`.  Moreover,
whenever some node `X` still records the non-empty predecessor `p` in
the final state, `getNext(p)` is non-empty.  (The original claim's
unconditional "`getNext(p)` is non-empty" fails when the edge to `p`
was overwritten by a later `setPrev`, see the counterexample.) -/
theorem claim9_dangling_prev_not_node (ops : List (String × Option String)) (p : String)
    (h : ∀ op ∈ ops, op.1 ≠ p) :
    hasNode (buildNextMap (applyOps ops)) p = false ∧
    p ∉ getAllNodes (buildNextMap (applyOps ops)) ∧
    (∀ X, getPrev (buildNextMap (applyOps ops)) X = some p → p ≠ "" →
      getNext (buildNextMap (applyOps ops)) p ≠ []) := by
  have hnone : mapGet (applyOps ops).prevMap p = none :=
    mapGet_foldl_setPrev ops ThreadGraph.empty p rfl h
  refine ⟨?_, ?_, ?_⟩
  · show (mapGet (applyOps ops).prevMap p).isSome = false
    rw [hnone]; rfl
  · show p ∉ (applyOps ops).prevMap.map Prod.fst
    exact (mapGet_eq_none_iff _ _).mp hnone
  · intro X hX hp
    exact List.ne_nil_of_mem (mem_getNext_buildNextMap (g := applyOps ops) hX hp)

theorem claim9_witness :
    hasNode (buildNextMap (applyOps [("B", some "P")])) "P" = false ∧
    "P" ∉ getAllNodes (buildNextMap (applyOps [("B", some "P")])) ∧
    (∀ X, getPrev (buildNextMap (applyOps [("B", some "P")])) X = some "P" → "P" ≠ "" →
      getNext (buildNextMap (applyOps [("B", some "P")])) "P" ≠ []) :=
  claim9_dangling_prev_not_node [("B", some "P")] "P" (by decide)

/-- `"P"` is passed as a predecessor by the first `setPrev("A", "P")`
and never as a first argument, yet after the second call overwrites
`A`'s predecessor, `getNext("P")` is empty — refuting the claimed
unconditional non-emptiness (while the node-membership part holds). -/
theorem claim9_counterexample :
    hasNode (buildNextMap (applyOps [("A", some "P"), ("A", none)])) "P" = false ∧
    "P" ∉ getAllNodes (buildNextMap (applyOps [("A", some "P"), ("A", none)])) ∧
    getNext (buildNextMap (applyOps [("A", some "P"), ("A", none)])) "P" = [] := by decide

/-- Claim C10 (amended): for a path `p` with `hasNode(p) = false` the
query operations stay total and `getPrev(p)` is null; `getNext(p)` is
the empty sequence provided `p` was also never recorded as a
predecessor value.  (The original unconditional "`getNext(p)` is
empty" fails for a dangling predecessor target, see the
counterexample.) -/
theorem claim10_unknown_path_defaults (ops : List (String × Option String)) (p : String)
    (h : hasNode (buildNextMap (applyOps ops)) p = false) :
    getPrev (buildNextMap (applyOps ops)) p = none ∧
    ((∀ op ∈ ops, op.2 ≠ some p) → getNext (buildNextMap (applyOps ops)) p = []) := by
  have hnone : mapGet (applyOps ops).prevMap p = none := by
    have h' : (mapGet (applyOps ops).prevMap p).isSome = false := h
    cases hx : mapGet (applyOps ops).prevMap p with
    | none => rfl
    | some o => rw [hx] at h'; simp at h'
  constructor
  · show (mapGet (applyOps ops).prevMap p).join = none
    rw [hnone]; rfl
  · intro hops
    show (mapGet (buildNextFold (applyOps ops).prevMap []) p).getD [] = []
    rw [mapGet_buildNextFold_none (applyOps ops).prevMap [] p rfl ?_]
    · rfl
    · intro e he hcontra
      rcases mem_foldl_setPrev_prevMap ops ThreadGraph.empty e he with h2 | h2
      · simp [ThreadGraph.empty] at h2
      · rcases List.mem_map.mp h2 with ⟨op, hop, hsnd⟩
        exact hops op hop (by rw [hsnd, hcontra])

theorem claim10_witness :
    getPrev (buildNextMap (applyOps [("A", some "B")])) "Q" = none ∧
    ((∀ op ∈ [("A", some "B")], op.2 ≠ some "Q") →
      getNext (buildNextMap (applyOps [("A", some "B")])) "Q" = []) :=
  claim10_unknown_path_defaults [("A", some "B")] "Q" (by decide)

/-- `"P"` is a dangling predecessor target: `hasNode("P")` is false yet
`getNext("P") = ["A"]`, refuting the claim that an unknown path always
has an empty successor list. -/
theorem claim10_counterexample :
    hasNode (buildNextMap (applyOps [("A", some "P")])) "P" = false ∧
    getNext (buildNextMap (applyOps [("A", some "P")])) "P" = ["A"] := by decide

/-! ### Chain insertion (ChainInsertionService.ts): claims C2 and C3 -/

/-- `InsertionContext` of `InsertionTypes.ts`. -/
structure InsertionContext where
  sourcePath : String
  sourceTitle : String
  nextPath : Option String
  isAppend : Bool
deriving DecidableEq

/-- `CreatedNote` of `InsertionTypes.ts`. -/
structure CreatedNote where
  path : String
  title : String
deriving DecidableEq

/-- `FrontmatterMutation` of `InsertionTypes.ts`.  The source type also
admits boolean and null values; `calculateMutations` only ever builds
string values and `applyMutation` coerces with `String(...)`, the
identity on strings, so the value is modelled as a string. -/
structure FrontmatterMutation where
  targetPath : String
  property : String
  value : String
deriving DecidableEq

/-- `buildInsertionContext(currentPath)`: the source title comes from
the vault (`file.basename`, or the path with `.md` stripped) and the
next path from `graph.getMainContinuation(currentPath)`; both are
external to the computation and passed in.  `isAppend` is
`nextPath === null`. -/
def buildInsertionContext (sourceTitle currentPath : String)
    (mainContinuation : Option String) : InsertionContext :=
  { sourcePath := currentPath
    sourceTitle := sourceTitle
    nextPath := mainContinuation
    isAppend := mainContinuation.isNone }

/-- `calculateMutations(context, created)`: one mutation rewriting the
next note's `prev` when inserting mid-chain, none otherwise.  The
guard `if (!context.isAppend && context.nextPath)` tests JavaScript
truthiness, so a null or empty-string `nextPath` produces no
mutation. -/
def calculateMutations (context : InsertionContext) (created : CreatedNote) :
    List FrontmatterMutation :=
  match context.isAppend, context.nextPath with
  | false, some nextPath =>
    if nextPath = "" then []
    else [{ targetPath := nextPath
            property := "prev"
            value := "[[" ++ created.title ++ "]]" }]
  | _, _ => []

/-- Claim C2 (amended): with `context = buildInsertionContext(...)`,
`isAppend` holds iff `getMainContinuation` returned null; an append
produces no mutations; a mid-chain insertion with a *non-empty*
`nextPath` produces exactly one mutation, targeting the next document
and rewriting its `prev` to reference the created note; and a
mid-chain context whose `nextPath` is the empty string also produces
no mutations (the truthiness guard excludes it — the original claim's
"exactly one mutation whenever `nextPath` is non-null" fails there,
see the counterexample). -/
theorem claim2_calculateMutations (sourceTitle currentPath : String)
    (mc : Option String) (created : CreatedNote) :
    ((buildInsertionContext sourceTitle currentPath mc).isAppend = true ↔ mc = none) ∧
    (mc = none →
      calculateMutations (buildInsertionContext sourceTitle currentPath mc) created = []) ∧
    (∀ p, mc = some p → p ≠ "" →
      calculateMutations (buildInsertionContext sourceTitle currentPath mc) created =
        [{ targetPath := p, property := "prev", value := "[[" ++ created.title ++ "]]" }]) ∧
    (mc = some "" →
      calculateMutations (buildInsertionContext sourceTitle currentPath mc) created = []) := by
  refine ⟨?_, ?_, ?_, ?_⟩
  · cases mc <;> simp [buildInsertionContext]
  · intro h; subst h; rfl
  · intro p hp hne
    subst hp
    simp [buildInsertionContext, calculateMutations, hne]
  · intro h; subst h; rfl

/-- A context built from the main continuation `""` is mid-chain by
the claim's definition (`isAppend` false, `nextPath` non-null) yet
`calculateMutations` returns the empty list instead of exactly one
mutation. -/
theorem claim2_counterexample :
    (buildInsertionContext "A" "A.md" (some "")).isAppend = false ∧
    (buildInsertionContext "A" "A.md" (some "")).nextPath = some "" ∧
    calculateMutations (buildInsertionContext "A" "A.md" (some ""))
      { path := "N.md", title := "N" } = [] := by decide

/-! ### Claim C3: the bounded backward walk -/

/-- Result of the root-finding walk: the root node, or a detected
cycle. -/
inductive RootResult where
  | root (path : String)
  | cycleDetected
deriving DecidableEq

/-- Modelled from the spec: `getThreadRoot` is not among the
repository's files (only callers of the ThreadGraph traversal API
are).  §4.1 requires a "backward walk; must bound the walk (e.g.,
visited-set check) to fail safely on a cycle rather than loop
forever", and §9 prescribes maintaining a visited-set and a dedicated
"cycle detected" result.  The walk keeps a visited-set and reports
`cycleDetected` on revisiting a node; the fuel argument makes the
recursion structural and, at `|prevMap| + 1`, can only run out after
the visited-set check has already caught every possible repeat. -/
def getThreadRootAux (g : ThreadGraph) : Nat → List String → String → RootResult
  | 0, _, _ => RootResult.cycleDetected
  | fuel + 1, visited, current =>
    if current ∈ visited then RootResult.cycleDetected
    else
      match getPrev g current with
      | none => RootResult.root current
      | some p => getThreadRootAux g fuel (current :: visited) p

/-- Modelled from the spec (see `getThreadRootAux`). -/
def getThreadRoot (g : ThreadGraph) (path : String) : RootResult :=
  getThreadRootAux g (g.prevMap.length + 1) [] path

theorem getThreadRootAux_sound (g : ThreadGraph) (fuel : Nat) (visited : List String)
    (current : String) :
    (∃ r, getThreadRootAux g fuel visited current = RootResult.root r ∧ getPrev g r = none) ∨
    getThreadRootAux g fuel visited current = RootResult.cycleDetected := by
  induction fuel generalizing visited current with
  | zero => exact Or.inr rfl
  | succ fuel ih =>
    have hstep : getThreadRootAux g (fuel + 1) visited current =
        if current ∈ visited then RootResult.cycleDetected
        else
          match getPrev g current with
          | none => RootResult.root current
          | some p => getThreadRootAux g fuel (current :: visited) p := rfl
    rw [hstep]
    by_cases hv : current ∈ visited
    · rw [if_pos hv]; exact Or.inr rfl
    · rw [if_neg hv]
      cases hp : getPrev g current with
      | none => exact Or.inl ⟨current, by simp, hp⟩
      | some p => exact ih (current :: visited) p

/-- Claim C3: on every graph — including one whose `prev` mapping is
cyclic — the backward walk `getThreadRoot` terminates (it is a total
function), always returning either a genuine root (a node with no
predecessor) or the dedicated cycle-detected failure; on the concrete
two-cycle `A.prev = B, B.prev = A` it reports the failure rather than
looping forever. -/
theorem claim3_getThreadRoot_bounded :
    (∀ (g : ThreadGraph) (path : String),
      (∃ r, getThreadRoot g path = RootResult.root r ∧ getPrev g r = none) ∨
      getThreadRoot g path = RootResult.cycleDetected) ∧
    getThreadRoot (buildNextMap (applyOps [("A", some "B"), ("B", some "A")])) "A" =
      RootResult.cycleDetected :=
  ⟨fun g path => getThreadRootAux_sound g (g.prevMap.length + 1) [] path, by decide⟩

/-! ### Claim C8: the empty-line trigger detector -/

/-- The counting loop of `countEmptyLinesAtEnd`, scanning the document
backwards (here: the reversed character list forwards): each newline
counts one empty line, a carriage return directly before a counted
newline is skipped, spaces and tabs inside empty lines are skipped,
and any other character stops the count. -/
def countNL : List Char → Nat
  | [] => 0
  | '\n' :: '\r' :: rest => 1 + countNL rest
  | '\n' :: rest => 1 + countNL rest
  | c :: rest => if c = ' ' || c = '\t' then countNL rest else 0

/-- `countEmptyLinesAtEnd(content)`: zero for the empty document
(`if (!content) return 0`), otherwise trailing spaces on the last line
are skipped first and the newline count is taken from the end. -/
def countEmptyLinesAtEnd (content : String) : Nat :=
  if content = "" then 0
  else countNL (content.data.reverse.dropWhile (fun c => c = ' '))

/-- The observer's configuration: the threshold, and whether
`getFilePath()` yields a path (the callback only fires when it
does). -/
structure ObserverConfig where
  threshold : Nat
  hasFilePath : Bool
deriving DecidableEq

/-- One `checkTrigger()` call: the pair is the new `triggered` flag and
whether `onTrigger` fired.  Mirrors the source: fire only when the
count reaches the threshold while not yet triggered (and a file path
exists); re-arm when the count drops below the threshold. -/
def checkTriggerStep (cfg : ObserverConfig) (triggered : Bool) (content : String) :
    Bool × Bool :=
  let emptyLineCount := countEmptyLinesAtEnd content
  if cfg.threshold ≤ emptyLineCount ∧ triggered = false then
    (true, cfg.hasFilePath)
  else if emptyLineCount < cfg.threshold then
    (false, false)
  else
    (triggered, false)

/-- The fire indicators over a sequence of observed document states,
starting from a given `triggered` flag (the constructor initialises it
to `false`). -/
def runDetector (cfg : ObserverConfig) : Bool → List String → List Bool
  | _, [] => []
  | triggered, content :: rest =>
    (checkTriggerStep cfg triggered content).2 ::
      runDetector cfg (checkTriggerStep cfg triggered content).1 rest

/-- Threshold-crossing indicators, written independently of the
detector: a crossing is a count at or above the threshold whose
predecessor (if any) was below it. -/
def crossingFlags (threshold : Nat) : Option Nat → List Nat → List Bool
  | _, [] => []
  | prev, c :: rest =>
    (decide (threshold ≤ c) &&
      (match prev with
       | none => true
       | some p => decide (p < threshold))) :: crossingFlags threshold (some c) rest

theorem checkTriggerStep_fst (T : Nat) (st : Bool) (content : String) :
    (checkTriggerStep ⟨T, true⟩ st content).1 =
      decide (T ≤ countEmptyLinesAtEnd content) := by
  cases st <;> by_cases hc : T ≤ countEmptyLinesAtEnd content <;>
    first
      | simp [checkTriggerStep, hc, Nat.not_lt.mpr hc]
      | simp [checkTriggerStep, hc, Nat.lt_of_not_le hc]

theorem checkTriggerStep_snd (T : Nat) (st : Bool) (content : String) :
    (checkTriggerStep ⟨T, true⟩ st content).2 =
      (decide (T ≤ countEmptyLinesAtEnd content) && !st) := by
  cases st <;> by_cases hc : T ≤ countEmptyLinesAtEnd content <;>
    first
      | simp [checkTriggerStep, hc, Nat.not_lt.mpr hc]
      | simp [checkTriggerStep, hc, Nat.lt_of_not_le hc]

theorem runDetector_eq_crossingFlags (T : Nat) (contents : List String)
    (st : Bool) (prev : Option Nat)
    (hst : st = match prev with
      | none => false
      | some p => decide (T ≤ p)) :
    runDetector ⟨T, true⟩ st contents =
      crossingFlags T prev (contents.map countEmptyLinesAtEnd) := by
  induction contents generalizing st prev with
  | nil => rfl
  | cons content rest ih =>
    rcases prev with _ | p
    · have hst' : st = false := hst
      subst hst'
      show (checkTriggerStep ⟨T, true⟩ false content).2 ::
          runDetector ⟨T, true⟩ (checkTriggerStep ⟨T, true⟩ false content).1 rest =
        (decide (T ≤ countEmptyLinesAtEnd content) && true) ::
          crossingFlags T (some (countEmptyLinesAtEnd content)) (rest.map countEmptyLinesAtEnd)
      rw [checkTriggerStep_snd, checkTriggerStep_fst,
        ih (decide (T ≤ countEmptyLinesAtEnd content)) (some (countEmptyLinesAtEnd content)) rfl]
      rfl
    · have hst' : st = decide (T ≤ p) := hst
      subst hst'
      show (checkTriggerStep ⟨T, true⟩ (decide (T ≤ p)) content).2 ::
          runDetector ⟨T, true⟩ (checkTriggerStep ⟨T, true⟩ (decide (T ≤ p)) content).1 rest =
        (decide (T ≤ countEmptyLinesAtEnd content) && decide (p < T)) ::
          crossingFlags T (some (countEmptyLinesAtEnd content)) (rest.map countEmptyLinesAtEnd)
      have hnot : ((!decide (T ≤ p)) : Bool) = decide (p < T) := by
        by_cases hp : T ≤ p
        · simp [hp, Nat.not_lt.mpr hp]
        · simp [hp, Nat.lt_of_not_le hp]
      rw [checkTriggerStep_snd, checkTriggerStep_fst, hnot,
        ih (decide (T ≤ countEmptyLinesAtEnd content)) (some (countEmptyLinesAtEnd content)) rfl]

/-- Claim C8: over every sequence of observed document states (with a
file path available), the detector's fire indicators coincide exactly
with the threshold-crossing indicators of the trailing-empty-line
counts: a fire happens precisely when the count reaches the threshold
after having been below it (or at the start), so once a trigger has
fired no further trigger occurs until the count first drops below the
threshold, and each crossing produces exactly one trigger.  (The
debounce timer only coalesces which document states are observed; the
property is about the observed sequence.) -/
theorem claim8_one_trigger_per_crossing (T : Nat) (contents : List String) :
    runDetector ⟨T, true⟩ false contents =
      crossingFlags T none (contents.map countEmptyLinesAtEnd) :=
  runDetector_eq_crossingFlags T contents false none rfl

/-! ### Claim C5: the graph builder -/

/-- JavaScript `trim()` whitespace (restricted to the ASCII whitespace
that can occur here). -/
def isJSSpace (c : Char) : Bool := c = ' ' || c = '\t' || c = '\n' || c = '\r'

def trimChars (l : List Char) : List Char :=
  ((l.dropWhile isJSSpace).reverse.dropWhile isJSSpace).reverse

/-- `link.replace(/^\[\[/, '').replace(/\]\]$/, '')`: one leading and
one trailing double-bracket pair are removed when present. -/
def stripBrackets (l : List Char) : List Char :=
  let l1 := match l with
    | '[' :: '[' :: rest => rest
    | other => other
  match l1.reverse with
  | ']' :: ']' :: rest => rest.reverse
  | _ => l1

/-- `cleanWikilink(link)`: empty for a missing (or, by the `!link`
truthiness test, empty) link; otherwise brackets stripped, the part
before the first pipe taken, and the result trimmed. -/
def cleanWikilink (link : Option String) : String :=
  match link with
  | none => ""
  | some s =>
    if s = "" then ""
    else String.mk (trimChars ((stripBrackets s.data).takeWhile (fun c => c ≠ '|')))

/-- One scanned markdown file as the builder sees it: its path, the
`prev` value extracted from its frontmatter cache (`null` when absent
or unusable), and whether `thread: true` is set. -/
structure VaultDoc where
  path : String
  prevLink : Option String
  isThread : Bool
deriving DecidableEq

/-- `clear()`: resets the maps to empty. -/
def clearGraph (_ : ThreadGraph) : ThreadGraph := ThreadGraph.empty

/-- One iteration of `buildGraph`'s loop: `if (prevLink)` (truthiness)
guards the resolution; `getFirstLinkpathDest` is the external resolver,
passed in as a function; on resolution failure the predecessor path is
the cleaned link text with `.md` appended. -/
def buildGraphStep (resolve : String → String → Option String)
    (g : ThreadGraph) (doc : VaultDoc) : ThreadGraph :=
  let g1 :=
    match doc.prevLink with
    | some link =>
      if link = "" then setPrev g doc.path none
      else
        setPrev g doc.path
          (some ((resolve (cleanWikilink (some link)) doc.path).getD
            (cleanWikilink (some link) ++ ".md")))
    | none => setPrev g doc.path none
  setIsMainThread g1 doc.path doc.isThread

/-- `buildGraph(app, graph)`: clear, scan every markdown file, then
invert into the next-map once. -/
def buildGraph (resolve : String → String → Option String)
    (g : ThreadGraph) (docs : List VaultDoc) : ThreadGraph :=
  buildNextMap (docs.foldl (buildGraphStep resolve) (clearGraph g))

theorem prevMap_buildGraphStep_other (resolve : String → String → Option String)
    (g : ThreadGraph) (doc : VaultDoc) (q : String) (hq : doc.path ≠ q) :
    mapGet (buildGraphStep resolve g doc).prevMap q = mapGet g.prevMap q := by
  unfold buildGraphStep setIsMainThread setPrev
  rcases doc with ⟨path, pl, b⟩
  match pl with
  | none => exact (mapGet_mapSet _ _ _ _).trans (if_neg hq)
  | some link =>
    simp only
    split <;> exact (mapGet_mapSet _ _ _ _).trans (if_neg hq)

theorem mapGet_foldl_buildGraphStep_other (resolve : String → String → Option String)
    (docs : List VaultDoc) (g : ThreadGraph) (q : String)
    (h : ∀ d ∈ docs, d.path ≠ q) :
    mapGet (docs.foldl (buildGraphStep resolve) g).prevMap q = mapGet g.prevMap q := by
  induction docs generalizing g with
  | nil => rfl
  | cons d rest ih =>
    show mapGet (rest.foldl (buildGraphStep resolve) (buildGraphStep resolve g d)).prevMap q = _
    rw [ih (buildGraphStep resolve g d) (fun d' hd' => h d' (List.mem_cons_of_mem _ hd'))]
    exact prevMap_buildGraphStep_other resolve g d q (h d (List.mem_cons_self _ _))

theorem mapGet_foldl_buildGraphStep_found (resolve : String → String → Option String)
    (docs : List VaultDoc) (g : ThreadGraph) (path ref : String) (b : Bool)
    (hmem : (⟨path, some ref, b⟩ : VaultDoc) ∈ docs)
    (hnodup : (docs.map VaultDoc.path).Nodup) (href : ref ≠ "") :
    mapGet (docs.foldl (buildGraphStep resolve) g).prevMap path =
      some (some ((resolve (cleanWikilink (some ref)) path).getD
        (cleanWikilink (some ref) ++ ".md"))) := by
  induction docs generalizing g with
  | nil => cases hmem
  | cons d rest ih =>
    have hnodup' := hnodup
    rw [List.map_cons, List.nodup_cons] at hnodup'
    rcases List.mem_cons.mp hmem with he | he
    · subst he
      show mapGet (rest.foldl (buildGraphStep resolve)
        (buildGraphStep resolve g ⟨path, some ref, b⟩)).prevMap path = _
      rw [mapGet_foldl_buildGraphStep_other resolve rest _ path ?_]
      · simp only [buildGraphStep, setIsMainThread, setPrev, if_neg href]
        rw [mapGet_mapSet, if_pos rfl]
      · intro d' hd' hcontra
        have hin : d'.path ∈ rest.map VaultDoc.path := List.mem_map_of_mem VaultDoc.path hd'
        rw [hcontra] at hin
        exact hnodup'.1 hin
    · refine ih (buildGraphStep resolve g d) ?_ ?_ <;> first
        | exact he
        | exact hnodup'.2

/-- Claim C5: a document carrying a (non-empty) `prev` reference that
the resolver cannot map to an existing file still yields an edge: its
recorded predecessor path is the cleaned reference text
(`cleanWikilink`: brackets and an optional pipe alias stripped) with
the default extension `.md` appended, and the source document itself
is a node (`hasNode` is true). -/
theorem claim5_dangling_reference (resolve : String → String → Option String)
    (g0 : ThreadGraph) (docs : List VaultDoc) (path ref : String) (b : Bool)
    (hmem : (⟨path, some ref, b⟩ : VaultDoc) ∈ docs)
    (hnodup : (docs.map VaultDoc.path).Nodup)
    (href : ref ≠ "")
    (hres : resolve (cleanWikilink (some ref)) path = none) :
    getPrev (buildGraph resolve g0 docs) path =
      some (cleanWikilink (some ref) ++ ".md") ∧
    hasNode (buildGraph resolve g0 docs) path = true := by
  have h : mapGet (docs.foldl (buildGraphStep resolve) ThreadGraph.empty).prevMap path =
      some (some (cleanWikilink (some ref) ++ ".md")) := by
    rw [mapGet_foldl_buildGraphStep_found resolve docs ThreadGraph.empty path ref b
      hmem hnodup href, hres]
    rfl
  constructor
  · show (mapGet (docs.foldl (buildGraphStep resolve) ThreadGraph.empty).prevMap path).join = _
    rw [h]; rfl
  · show (mapGet (docs.foldl (buildGraphStep resolve) ThreadGraph.empty).prevMap path).isSome = true
    rw [h]; rfl

theorem claim5_witness :
    cleanWikilink (some "[[Ghost|g]]") = "Ghost" ∧
    getPrev (buildGraph (fun _ _ => none) ThreadGraph.empty
        [⟨"note.md", some "[[Ghost|g]]", true⟩]) "note.md" =
      some (cleanWikilink (some "[[Ghost|g]]") ++ ".md") ∧
    hasNode (buildGraph (fun _ _ => none) ThreadGraph.empty
        [⟨"note.md", some "[[Ghost|g]]", true⟩]) "note.md" = true :=
  ⟨by decide,
    (claim5_dangling_reference (fun _ _ => none) ThreadGraph.empty
      [⟨"note.md", some "[[Ghost|g]]", true⟩] "note.md" "[[Ghost|g]]" true
      (by decide) (by decide) (by decide) rfl).1,
    (claim5_dangling_reference (fun _ _ => none) ThreadGraph.empty
      [⟨"note.md", some "[[Ghost|g]]", true⟩] "note.md" "[[Ghost|g]]" true
      (by decide) (by decide) (by decide) rfl).2⟩

/-! ### Claim C4: `applyMutation` on a document's metadata block -/

/-- JavaScript `content.split('\n')`. -/
def splitNL : List Char → List (List Char)
  | [] => [[]]
  | '\n' :: rest => [] :: splitNL rest
  | c :: rest =>
    match splitNL rest with
    | seg :: segs => (c :: seg) :: segs
    | [] => [[c]]

/-- The optional `\r?\n?` the frontmatter regex consumes after the
closing delimiter (`\r?` greedily first, then `\n?`). -/
def dropCloseNL : List Char → List Char
  | '\r' :: '\n' :: rest => rest
  | '\r' :: rest => rest
  | '\n' :: rest => rest
  | rest => rest

/-- The lazy part of `/^---\r?\n([\s\S]*?)\r?\n---\r?\n?/`: scan for
the first `\r?\n---`, returning the block content before it and the
remaining document after the optional newline. -/
def fmSplit : List Char → Option (List Char × List Char)
  | '\r' :: '\n' :: '-' :: '-' :: '-' :: rest => some ([], dropCloseNL rest)
  | '\n' :: '-' :: '-' :: '-' :: rest => some ([], dropCloseNL rest)
  | c :: rest => (fmSplit rest).map (fun ib => (c :: ib.1, ib.2))
  | [] => none

/-- `content.match(/^---\r?\n([\s\S]*?)\r?\n---\r?\n?/)`: the block
content (group 1) and the document body after the whole match, or
`none` when the document does not open with a delimited block. -/
def parseFM (content : String) : Option (String × String) :=
  match content.data with
  | '-' :: '-' :: '-' :: '\r' :: '\n' :: rest =>
    (fmSplit rest).map (fun ib => (String.mk ib.1, String.mk ib.2))
  | '-' :: '-' :: '-' :: '\n' :: rest =>
    (fmSplit rest).map (fun ib => (String.mk ib.1, String.mk ib.2))
  | _ => none

/-- `line.match(/^([^:]+):\s*(.*)$/)` with the subsequent `.trim()`
calls: the text before the first colon (non-empty, trimmed) and the
text after it (trimmed, since `\s*` plus the final `trim` amount to
trimming). Lines without a colon, or starting with one, match
nothing. -/
def parseFMLine (line : List Char) : Option (String × String) :=
  match line.dropWhile (fun c => c ≠ ':') with
  | ':' :: restChars =>
    if line.takeWhile (fun c => c ≠ ':') = [] then none
    else some (String.mk (trimChars (line.takeWhile (fun c => c ≠ ':'))),
      String.mk (trimChars restChars))
  | _ => none

/-- The property-collecting loop of `applyMutation`: each parsed line
is entered into the record, with the mutated property's value replaced
and the `found` flag set when its key is met. -/
def upsertLines (mutProp mutVal : String) :
    List (List Char) → List (String × String) → Bool → List (String × String) × Bool
  | [], props, found => (props, found)
  | line :: rest, props, found =>
    match parseFMLine line with
    | some kv =>
      if kv.1 = mutProp then upsertLines mutProp mutVal rest (mapSet props kv.1 mutVal) true
      else upsertLines mutProp mutVal rest (mapSet props kv.1 kv.2) found
    | none => upsertLines mutProp mutVal rest props found

def joinLinesNL : List (List Char) → List Char
  | [] => []
  | [l] => l
  | l :: rest => l ++ '\n' :: joinLinesNL rest

/-- `createFrontmatter(properties)`: every branch of the source
function renders an entry as `` `${key}: ${value}` ``, joined by
newlines between the two `---` delimiters. -/
def createFrontmatter (props : List (String × String)) : String :=
  String.mk ("---\n".data ++
    joinLinesNL (props.map (fun kv => kv.1.data ++ ": ".data ++ kv.2.data)) ++
    "\n---\n".data)

/-- `applyMutation(mutation)` on the target document's text: parse the
block, collect its `key: value` lines, upsert the mutated property,
re-serialize in front of the unchanged body; prepend a fresh block
when no block exists. -/
def applyMutationContent (mutation : FrontmatterMutation) (content : String) : String :=
  match parseFM content with
  | some ib =>
    let lines := splitNL ib.1.data
    let res := upsertLines mutation.property mutation.value lines [] false
    let props := if res.2 then res.1 else mapSet res.1 mutation.property mutation.value
    createFrontmatter props ++ ib.2
  | none => createFrontmatter [(mutation.property, mutation.value)] ++ content

/-- The `key: value` lines of a block as `applyMutation` would read
them, without any mutation. -/
def parsePropsAux : List (List Char) → List (String × String) → List (String × String)
  | [], props => props
  | line :: rest, props =>
    match parseFMLine line with
    | some kv => parsePropsAux rest (mapSet props kv.1 kv.2)
    | none => parsePropsAux rest props

/-- The parsed properties of a document's metadata block (empty when
the block is absent). -/
def propsOf (content : String) : List (String × String) :=
  match parseFM content with
  | some ib => parsePropsAux (splitNL ib.1.data) []
  | none => []

/-- The document body after the metadata block (the whole document
when the block is absent). -/
def bodyOf (content : String) : String :=
  match parseFM content with
  | some ib => ib.2
  | none => content

theorem upsertLines_found_prop (mutProp mutVal : String) (lines : List (List Char))
    (props : List (String × String)) (found : Bool)
    (hacc : found = true → mapGet props mutProp = some mutVal)
    (hfound : (upsertLines mutProp mutVal lines props found).2 = true) :
    mapGet (upsertLines mutProp mutVal lines props found).1 mutProp = some mutVal := by
  induction lines generalizing props found with
  | nil => exact hacc hfound
  | cons line rest ih =>
    cases hkv : parseFMLine line with
    | none =>
      simp only [upsertLines, hkv] at hfound ⊢
      exact ih props found hacc hfound
    | some kv =>
      by_cases hp : kv.1 = mutProp
      · simp only [upsertLines, hkv, if_pos hp] at hfound ⊢
        refine ih _ true (fun _ => ?_) hfound
        rw [mapGet_mapSet, hp, if_pos rfl]
      · simp only [upsertLines, hkv, if_neg hp] at hfound ⊢
        refine ih _ found (fun hf => ?_) hfound
        rw [mapGet_mapSet, if_neg hp]
        exact hacc hf

theorem upsertLines_other (mutProp mutVal k : String) (hk : k ≠ mutProp)
    (lines : List (List Char)) (acc1 acc2 : List (String × String)) (found : Bool)
    (h : mapGet acc1 k = mapGet acc2 k) :
    mapGet (upsertLines mutProp mutVal lines acc1 found).1 k =
      mapGet (parsePropsAux lines acc2) k := by
  induction lines generalizing acc1 acc2 found with
  | nil => exact h
  | cons line rest ih =>
    cases hkv : parseFMLine line with
    | none =>
      simp only [upsertLines, parsePropsAux, hkv]
      exact ih acc1 acc2 found h
    | some kv =>
      by_cases hp : kv.1 = mutProp
      · simp only [upsertLines, parsePropsAux, hkv, if_pos hp]
        apply ih
        rw [mapGet_mapSet, mapGet_mapSet]
        have hck : kv.1 ≠ k := fun hck => hk (hck ▸ hp)
        rw [if_neg hck, if_neg hck, h]
      · simp only [upsertLines, parsePropsAux, hkv, if_neg hp]
        apply ih
        rw [mapGet_mapSet, mapGet_mapSet]
        by_cases hck : kv.1 = k
        · rw [if_pos hck, if_pos hck]
        · rw [if_neg hck, if_neg hck, h]

/-- Claim C4 (amended): for every document and single-property
mutation, the rewritten document is a re-serialized metadata block
followed by the *unchanged* body; in that block the named property
carries the mutation's value, and every other property that the block
parser reads from a `key: value` line keeps its (trimmed) value.  When
the block is absent, the new block contains only the named property
and is prepended to the unchanged document.  (The original claim's
preservation of list-valued properties written as indented
hyphen-prefixed continuation lines fails: such lines carry no colon,
are dropped by the line parser and do not survive re-serialization —
see the counterexample.) -/
theorem claim4_applyMutation_frame (mutation : FrontmatterMutation) (content : String)
    (k : String) (hk : k ≠ mutation.property) :
    ∃ props,
      applyMutationContent mutation content = createFrontmatter props ++ bodyOf content ∧
      mapGet props mutation.property = some mutation.value ∧
      mapGet props k = mapGet (propsOf content) k := by
  cases hp : parseFM content with
  | none =>
    refine ⟨[(mutation.property, mutation.value)], ?_, ?_, ?_⟩
    · show applyMutationContent mutation content = _
      unfold applyMutationContent bodyOf
      rw [hp]
    · simp [mapGet]
    · simp only [propsOf]
      rw [hp]
      simp only [mapGet]
      rw [if_neg (fun h => hk h.symm)]
  | some ib =>
    refine ⟨if (upsertLines mutation.property mutation.value (splitNL ib.1.data) [] false).2 then
        (upsertLines mutation.property mutation.value (splitNL ib.1.data) [] false).1
      else mapSet (upsertLines mutation.property mutation.value (splitNL ib.1.data) [] false).1
        mutation.property mutation.value, ?_, ?_, ?_⟩
    · show applyMutationContent mutation content = _
      unfold applyMutationContent bodyOf
      rw [hp]
    · cases hfd : (upsertLines mutation.property mutation.value (splitNL ib.1.data) [] false).2
      · rw [if_neg (fun h => nomatch h)]
        rw [mapGet_mapSet, if_pos rfl]
      · rw [if_pos rfl]
        exact upsertLines_found_prop mutation.property mutation.value (splitNL ib.1.data) [] false
          (fun h => nomatch h) hfd
    · have hother := upsertLines_other mutation.property mutation.value k hk
        (splitNL ib.1.data) [] [] false rfl
      have hpropsOf : propsOf content = parsePropsAux (splitNL ib.1.data) [] := by
        simp only [propsOf]
        rw [hp]
      rw [hpropsOf]
      cases hfd : (upsertLines mutation.property mutation.value (splitNL ib.1.data) [] false).2
      · rw [if_neg (fun h => nomatch h)]
        rw [mapGet_mapSet, if_neg (fun hcontra => hk hcontra.symm), hother]
      · rw [if_pos rfl]
        exact hother

theorem claim4_witness :
    ∃ props,
      applyMutationContent { targetPath := "t.md", property := "prev", value := "[[N]]" }
          "---\na: 1\nprev: x\n---\nbody" =
        createFrontmatter props ++ bodyOf "---\na: 1\nprev: x\n---\nbody" ∧
      mapGet props "prev" = some "[[N]]" ∧
      mapGet props "a" = mapGet (propsOf "---\na: 1\nprev: x\n---\nbody") "a" :=
  claim4_applyMutation_frame { targetPath := "t.md", property := "prev", value := "[[N]]" }
    "---\na: 1\nprev: x\n---\nbody" "a" (by decide)

/-- A list-valued property written with hyphen-prefixed continuation
lines loses those lines under `applyMutation` of an unrelated
property: the input block contains the line `  - a` under `tags:`, the
output block does not (the whole output is computed explicitly), so
`tags` does not keep its value — refuting the original claim. -/
theorem claim4_counterexample :
    applyMutationContent { targetPath := "t.md", property := "prev", value := "[[N]]" }
        "---\ntags:\n  - a\nprev: [[X]]\n---\nbody\n" =
      "---\ntags: \nprev: [[N]]\n---\nbody\n" ∧
    (splitNL "---\ntags:\n  - a\nprev: [[X]]\n---\nbody\n".data).contains "  - a".data = true ∧
    (splitNL "---\ntags: \nprev: [[N]]\n---\nbody\n".data).contains "  - a".data = false := by
  decide

/-! ### Claim C7: `generateNoteName` ordering -/

/-- The character of a decimal digit. -/
def digitChar (n : Nat) : Char := Char.ofNat (48 + n)

/-- Decimal digits of a natural number, most significant first; the
fuel argument (any value above the digit count, `n + 1` always works)
makes the recursion structural. -/
def natDigitsAux : Nat → Nat → List Char
  | 0, _ => []
  | fuel + 1, n =>
    if n < 10 then [digitChar n]
    else natDigitsAux fuel (n / 10) ++ [digitChar (n % 10)]

/-- JavaScript number-to-string (`String(n)` and template-literal
interpolation) for a natural number: its decimal digits. -/
def jsNumToString (n : Nat) : String := String.mk (natDigitsAux (n + 1) n)

/-- `String.prototype.padStart(w, '0')`; a string of ASCII characters
has `s.length` equal to `s.data.length`. -/
def padStart (w : Nat) (s : String) : String :=
  if w ≤ s.data.length then s
  else String.mk (List.replicate (w - s.data.length) '0' ++ s.data)

/-- A wall-clock instant as the `Date` accessors deliver it:
`getFullYear()`, `getMonth()` (0-based), `getDate()`, `getHours()`,
`getMinutes()`, `getSeconds()`, `getMilliseconds()`. -/
structure DateTime where
  year : Nat
  month0 : Nat
  day : Nat
  hour : Nat
  minute : Nat
  second : Nat
  ms : Nat
deriving DecidableEq

/-- `generateNoteName()` evaluated at the instant `t`: the source's
`` `${year}${month}${day}-${hours}${minutes}${seconds}-${ms}` `` with
the month rendered as `getMonth() + 1` and every field but the year
left-padded with zeros. -/
def generateNoteName (t : DateTime) : String :=
  jsNumToString t.year ++ padStart 2 (jsNumToString (t.month0 + 1)) ++
    padStart 2 (jsNumToString t.day) ++ "-" ++ padStart 2 (jsNumToString t.hour) ++
    padStart 2 (jsNumToString t.minute) ++ padStart 2 (jsNumToString t.second) ++
    "-" ++ padStart 3 (jsNumToString t.ms)

/-- Chronological order on instants: lexicographic on
(year, month, day, hour, minute, second, millisecond). -/
def chronoLt (a b : DateTime) : Prop :=
  a.year < b.year ∨ (a.year = b.year ∧ (a.month0 < b.month0 ∨ (a.month0 = b.month0 ∧
    (a.day < b.day ∨ (a.day = b.day ∧ (a.hour < b.hour ∨ (a.hour = b.hour ∧
    (a.minute < b.minute ∨ (a.minute = b.minute ∧ (a.second < b.second ∨
    (a.second = b.second ∧ a.ms < b.ms)))))))))))

instance decChronoLt (a b : DateTime) : Decidable (chronoLt a b) := by
  unfold chronoLt; infer_instance

/-- Field ranges of a calendar instant whose year has four decimal
digits. -/
def validDT (t : DateTime) : Prop :=
  1000 ≤ t.year ∧ t.year ≤ 9999 ∧ t.month0 ≤ 11 ∧ 1 ≤ t.day ∧ t.day ≤ 31 ∧
    t.hour ≤ 23 ∧ t.minute ≤ 59 ∧ t.second ≤ 59 ∧ t.ms ≤ 999

instance decValidDT (t : DateTime) : Decidable (validDT t) := by
  unfold validDT; infer_instance

/-- Fixed-width decimal rendering, most significant digit first. -/
def toDigitsPad : Nat → Nat → List Char
  | 0, _ => []
  | w + 1, n => toDigitsPad w (n / 10) ++ [digitChar (n % 10)]

theorem length_toDigitsPad (w n : Nat) : (toDigitsPad w n).length = w := by
  induction w generalizing n with
  | zero => rfl
  | succ w ih =>
    show (toDigitsPad w (n / 10) ++ [digitChar (n % 10)]).length = w + 1
    rw [List.length_append, ih]
    rfl

theorem digitChar_lt : ∀ a, a < 10 → ∀ b, b < 10 → a < b → digitChar a < digitChar b := by
  decide

/-- Concatenations of equally long prefixes compare like the prefixes,
with ties broken by the suffixes (one direction of the lexicographic
unfolding). -/
theorem lex_append_same_length {a b : List Char} (c d : List Char)
    (hlen : a.length = b.length) (h : a < b ∨ (a = b ∧ c < d)) :
    a ++ c < b ++ d := by
  induction a generalizing b with
  | nil =>
    cases b with
    | nil =>
      rcases h with h | ⟨_, h⟩
      · exact absurd h (by intro hcontra; cases hcontra)
      · exact h
    | cons y ys => simp at hlen
  | cons x xs ih =>
    cases b with
    | nil => simp at hlen
    | cons y ys =>
      rcases h with h | ⟨he, h⟩
      · cases h with
        | rel hr => exact List.Lex.rel hr
        | cons ht => exact List.Lex.cons (ih (by simpa using hlen) (Or.inl ht))
      · injection he with h1 h2
        subst h1
        subst h2
        exact List.Lex.cons (ih rfl (Or.inr ⟨rfl, h⟩))

/-- Fixed-width decimal strings order like their values. -/
theorem toDigitsPad_lt : ∀ (w n m : Nat), n < m → m < 10 ^ w →
    toDigitsPad w n < toDigitsPad w m := by
  intro w
  induction w with
  | zero =>
    intro n m hnm hm
    simp at hm
    omega
  | succ w ih =>
    intro n m hnm hm
    have hpow : (10:Nat) ^ (w + 1) = 10 ^ w * 10 := pow_succ 10 w
    show toDigitsPad w (n / 10) ++ [digitChar (n % 10)] <
      toDigitsPad w (m / 10) ++ [digitChar (m % 10)]
    have hd : n / 10 ≤ m / 10 := Nat.div_le_div_right (le_of_lt hnm)
    rcases lt_or_eq_of_le hd with hlt | heq
    · exact lex_append_same_length _ _ (by rw [length_toDigitsPad, length_toDigitsPad])
        (Or.inl (ih (n / 10) (m / 10) hlt (by omega)))
    · refine lex_append_same_length _ _
        (by rw [length_toDigitsPad, length_toDigitsPad]) (Or.inr ⟨by rw [heq], ?_⟩)
      exact List.Lex.rel (digitChar_lt _ (Nat.mod_lt _ (by omega)) _ (Nat.mod_lt _ (by omega))
        (by omega))

theorem natDigitsAux_small (fuel n : Nat) (h : n < 10) :
    natDigitsAux (fuel + 1) n = [digitChar n] := by
  simp [natDigitsAux, h]

/-- With enough fuel, the free-form digit list of an `n` with exactly
`w + 1` digits is its fixed-width rendering. -/
theorem natDigitsAux_eq_toDigitsPad : ∀ (w fuel n : Nat), 10 ^ w ≤ n → n < 10 ^ (w + 1) →
    n < 10 ^ fuel → natDigitsAux fuel n = toDigitsPad (w + 1) n := by
  intro w
  induction w with
  | zero =>
    intro fuel n h1 h2 hf
    simp at h1 h2
    match fuel with
    | 0 => simp at hf; omega
    | fuel + 1 =>
      rw [natDigitsAux_small fuel n h2]
      have hm : n % 10 = n := Nat.mod_eq_of_lt h2
      show _ = toDigitsPad 0 (n / 10) ++ [digitChar (n % 10)]
      rw [hm]
      rfl
  | succ w ih =>
    intro fuel n h1 h2 hf
    have hpow1 : (10:Nat) ^ (w + 1) = 10 ^ w * 10 := pow_succ 10 w
    have hpow2 : (10:Nat) ^ (w + 2) = 10 ^ (w + 1) * 10 := pow_succ 10 (w + 1)
    have hone : 1 ≤ (10:Nat) ^ w := Nat.one_le_pow _ _ (by norm_num)
    have h10 : 10 ≤ n := by omega
    match fuel with
    | 0 => simp at hf; omega
    | fuel + 1 =>
      have hpow3 : (10:Nat) ^ (fuel + 1) = 10 ^ fuel * 10 := pow_succ 10 fuel
      show (if n < 10 then [digitChar n]
        else natDigitsAux fuel (n / 10) ++ [digitChar (n % 10)]) = _
      rw [if_neg (by omega)]
      show _ = toDigitsPad (w + 1) (n / 10) ++ [digitChar (n % 10)]
      congr 1
      exact ih fuel (n / 10) (by omega) (by omega) (by omega)

theorem jsNum_data_eq_pad (w n : Nat) (h1 : 10 ^ w ≤ n) (h2 : n < 10 ^ (w + 1)) :
    (jsNumToString n).data = toDigitsPad (w + 1) n := by
  have hf : n < 10 ^ (n + 1) := by
    calc n < 10 ^ n := Nat.lt_pow_self (by norm_num) n
    _ ≤ 10 ^ (n + 1) := Nat.pow_le_pow_right (by norm_num) (Nat.le_succ n)
  exact natDigitsAux_eq_toDigitsPad w (n + 1) n h1 h2 hf

/-- A value one digit short gains a leading zero under fixed width. -/
theorem toDigitsPad_zero_pad (w n : Nat) (h : n < 10 ^ w) :
    toDigitsPad (w + 1) n = '0' :: toDigitsPad w n := by
  induction w generalizing n with
  | zero =>
    simp at h
    subst h
    decide
  | succ w ih =>
    have hpow : (10:Nat) ^ (w + 1) = 10 ^ w * 10 := pow_succ 10 w
    show toDigitsPad (w + 1) (n / 10) ++ [digitChar (n % 10)] =
      '0' :: (toDigitsPad w (n / 10) ++ [digitChar (n % 10)])
    rw [ih (n / 10) (by omega)]
    rfl

theorem toDigitsPad_one (n : Nat) (h : n < 10) : toDigitsPad 1 n = [digitChar n] := by
  show toDigitsPad 0 (n / 10) ++ [digitChar (n % 10)] = _
  rw [Nat.mod_eq_of_lt h]
  rfl

theorem padStart_two (n : Nat) (h : n < 100) :
    (padStart 2 (jsNumToString n)).data = toDigitsPad 2 n := by
  by_cases h10 : n < 10
  · have hd : (jsNumToString n).data = [digitChar n] := natDigitsAux_small n n h10
    unfold padStart
    rw [hd, if_neg (by simp)]
    show '0' :: [digitChar n] = toDigitsPad 2 n
    rw [show (2:Nat) = 1 + 1 from rfl, toDigitsPad_zero_pad 1 n (by simpa using h10),
      toDigitsPad_one n h10]
  · have hd : (jsNumToString n).data = toDigitsPad 2 n :=
      jsNum_data_eq_pad 1 n (by simpa using Nat.le_of_not_lt h10) (by simpa using h)
    unfold padStart
    rw [hd, if_pos (by rw [length_toDigitsPad])]
    exact hd

theorem padStart_three (n : Nat) (h : n < 1000) :
    (padStart 3 (jsNumToString n)).data = toDigitsPad 3 n := by
  by_cases h10 : n < 10
  · have hd : (jsNumToString n).data = [digitChar n] := natDigitsAux_small n n h10
    unfold padStart
    rw [hd, if_neg (by simp)]
    show '0' :: '0' :: [digitChar n] = toDigitsPad 3 n
    rw [show (3:Nat) = 2 + 1 from rfl, toDigitsPad_zero_pad 2 n (by norm_num; omega),
      show (2:Nat) = 1 + 1 from rfl, toDigitsPad_zero_pad 1 n (by simpa using h10),
      toDigitsPad_one n h10]
  · by_cases h100 : n < 100
    · have hd : (jsNumToString n).data = toDigitsPad 2 n :=
        jsNum_data_eq_pad 1 n (by simpa using Nat.le_of_not_lt h10) (by simpa using h100)
      unfold padStart
      rw [hd, if_neg (by rw [length_toDigitsPad]; norm_num)]
      show '0' :: toDigitsPad 2 n = toDigitsPad 3 n
      rw [show (3:Nat) = 2 + 1 from rfl, toDigitsPad_zero_pad 2 n (by norm_num; omega)]
    · have hd : (jsNumToString n).data = toDigitsPad 3 n :=
        jsNum_data_eq_pad 2 n (by norm_num; omega) (by norm_num; omega)
      unfold padStart
      rw [hd, if_pos (by rw [length_toDigitsPad])]
      exact hd

/-- The rendered name of a valid instant, segment by segment. -/
theorem generateNoteName_data (t : DateTime) (h : validDT t) :
    (generateNoteName t).data =
      toDigitsPad 4 t.year ++ (toDigitsPad 2 (t.month0 + 1) ++ (toDigitsPad 2 t.day ++
        ('-' :: (toDigitsPad 2 t.hour ++ (toDigitsPad 2 t.minute ++
          (toDigitsPad 2 t.second ++ ('-' :: toDigitsPad 3 t.ms))))))) := by
  obtain ⟨hy1, hy2, hm, hd1, hd2, hh, hmin, hs, hms⟩ := h
  have hyear : (jsNumToString t.year).data = toDigitsPad 4 t.year :=
    jsNum_data_eq_pad 3 t.year (by norm_num; omega) (by norm_num; omega)
  show (jsNumToString t.year ++ padStart 2 (jsNumToString (t.month0 + 1)) ++
    padStart 2 (jsNumToString t.day) ++ "-" ++ padStart 2 (jsNumToString t.hour) ++
    padStart 2 (jsNumToString t.minute) ++ padStart 2 (jsNumToString t.second) ++
    "-" ++ padStart 3 (jsNumToString t.ms)).data = _
  rw [String.data_append, String.data_append, String.data_append, String.data_append,
    String.data_append, String.data_append, String.data_append, String.data_append]
  rw [hyear, padStart_two (t.month0 + 1) (by omega), padStart_two t.day (by omega),
    padStart_two t.hour (by omega), padStart_two t.minute (by omega),
    padStart_two t.second (by omega), padStart_three t.ms (by omega)]
  show _ = toDigitsPad 4 t.year ++ (toDigitsPad 2 (t.month0 + 1) ++ (toDigitsPad 2 t.day ++
    ("-".data ++ (toDigitsPad 2 t.hour ++ (toDigitsPad 2 t.minute ++
      (toDigitsPad 2 t.second ++ ("-".data ++ toDigitsPad 3 t.ms)))))))
  simp [List.append_assoc]

/-- Claim C7 (amended): between two instants whose year is rendered
with the same number of decimal digits (here: four, years 1000–9999)
and whose fields lie in calendar ranges, chronological order at
millisecond precision implies strict lexicographic order of the
generated note names — every field but the year is fixed-width
zero-padded.  (The year itself is *not* padded, so across a change in
the year's digit count the orders diverge, see the counterexample.) -/
theorem claim7_noteName_monotone (t1 t2 : DateTime) (h1 : validDT t1) (h2 : validDT t2)
    (hlt : chronoLt t1 t2) : generateNoteName t1 < generateNoteName t2 := by
  rw [String.lt_iff_toList_lt]
  show (generateNoteName t1).data < (generateNoteName t2).data
  rw [generateNoteName_data t1 h1, generateNoteName_data t2 h2]
  have p2 : (10:Nat) ^ 2 = 100 := by norm_num
  have p3 : (10:Nat) ^ 3 = 1000 := by norm_num
  have p4 : (10:Nat) ^ 4 = 10000 := by norm_num
  obtain ⟨ha1, ha2, ha3, ha4, ha5, ha6, ha7, ha8, ha9⟩ := h1
  obtain ⟨hb1, hb2, hb3, hb4, hb5, hb6, hb7, hb8, hb9⟩ := h2
  have hlen2 : ∀ x y : Nat, (toDigitsPad 2 x).length = (toDigitsPad 2 y).length := by
    intro x y; rw [length_toDigitsPad, length_toDigitsPad]
  rcases hlt with h | ⟨hy, hlt⟩
  · exact lex_append_same_length _ _
      (by rw [length_toDigitsPad, length_toDigitsPad])
      (Or.inl (toDigitsPad_lt 4 _ _ h (by omega)))
  · rw [hy]
    refine lex_append_same_length _ _ rfl (Or.inr ⟨rfl, ?_⟩)
    rcases hlt with h | ⟨hmo, hlt⟩
    · exact lex_append_same_length _ _ (hlen2 _ _)
        (Or.inl (toDigitsPad_lt 2 _ _ (by omega) (by omega)))
    · rw [hmo]
      refine lex_append_same_length _ _ rfl (Or.inr ⟨rfl, ?_⟩)
      rcases hlt with h | ⟨hd, hlt⟩
      · exact lex_append_same_length _ _ (hlen2 _ _)
          (Or.inl (toDigitsPad_lt 2 _ _ h (by omega)))
      · rw [hd]
        refine lex_append_same_length _ _ rfl (Or.inr ⟨rfl, ?_⟩)
        refine List.Lex.cons ?_
        rcases hlt with h | ⟨hh, hlt⟩
        · exact lex_append_same_length _ _ (hlen2 _ _)
            (Or.inl (toDigitsPad_lt 2 _ _ h (by omega)))
        · rw [hh]
          refine lex_append_same_length _ _ rfl (Or.inr ⟨rfl, ?_⟩)
          rcases hlt with h | ⟨hmin, hlt⟩
          · exact lex_append_same_length _ _ (hlen2 _ _)
              (Or.inl (toDigitsPad_lt 2 _ _ h (by omega)))
          · rw [hmin]
            refine lex_append_same_length _ _ rfl (Or.inr ⟨rfl, ?_⟩)
            rcases hlt with h | ⟨hs, hlt⟩
            · exact lex_append_same_length _ _ (hlen2 _ _)
                (Or.inl (toDigitsPad_lt 2 _ _ h (by omega)))
            · rw [hs]
              refine lex_append_same_length _ _ rfl (Or.inr ⟨rfl, ?_⟩)
              refine List.Lex.cons ?_
              exact toDigitsPad_lt 3 _ _ hlt (by omega)

theorem claim7_witness :
    generateNoteName ⟨2024, 0, 1, 0, 0, 0, 0⟩ < generateNoteName ⟨2025, 0, 1, 0, 0, 0, 1⟩ :=
  claim7_noteName_monotone ⟨2024, 0, 1, 0, 0, 0, 0⟩ ⟨2025, 0, 1, 0, 0, 0, 1⟩
    (by decide) (by decide) (by decide)

/-- The year field is not fixed-width: the millisecond before year
10000 (representable in a JavaScript `Date`, whose range extends to
the year 275760) is chronologically earlier than the first millisecond
of year 10000, yet its generated name is lexicographically greater —
refuting the claim over all representable instants. -/
theorem claim7_counterexample :
    chronoLt ⟨9999, 11, 31, 23, 59, 59, 999⟩ ⟨10000, 0, 1, 0, 0, 0, 0⟩ ∧
    ¬ (generateNoteName ⟨9999, 11, 31, 23, 59, 59, 999⟩ <
        generateNoteName ⟨10000, 0, 1, 0, 0, 0, 0⟩) := by
  constructor
  · decide
  · rw [String.lt_iff_toList_lt]
    decide

end ThreadNotes
